import Mathlib

/-!
Verification of the Mermaid-to-image Markdown converter
(`convert_mermaid.py`): a shallow embedding of the block locator,
the content namer, the path resolver, the two rewrite strategies and
the per-document processing loop, together with theorems settling the
specification's claims.

Document text is modelled as `List Char` (Python `str` is a sequence of
unicode scalars, as is Lean's `String.data`).  Python slices clamp at the
ends, which `List.drop`/`List.take` reproduce for natural indices.
-/

/-- The set of whitespace characters recognised by Python's `\s` and
`str.strip` (ASCII part; the converter only ever meets ASCII whitespace). -/
def isPySpace (c : Char) : Bool :=
  c = ' ' || c = '\t' || c = '\n' || c = '\r' || c = '\x0b' || c = '\x0c'

/-- Python slice `l[a:b]` for natural indices. -/
def pySlice (l : List Char) (a b : Nat) : List Char :=
  (l.drop a).take (b - a)

/-- Candidate start positions `start, start+1, ..., hay.length` for a
substring search, as Python's `str.find` scans them. -/
def searchPositions (hay : List Char) (start : Nat) : List Nat :=
  List.range' start (hay.length + 1 - start)

/-- Helper for `firstIdxFrom`: first position in `ps` where `n` occurs. -/
def firstIdxAux (hay n : List Char) : List Nat → Option Nat
  | [] => none
  | i :: is => if n.isPrefixOf (hay.drop i) then some i else firstIdxAux hay n is

/-- Python `hay.find(n, start)`: least `i ≥ start` with `n` occurring at `i`
(`none` for Python's `-1`). -/
def firstIdxFrom (hay n : List Char) (start : Nat) : Option Nat :=
  firstIdxAux hay n (searchPositions hay start)

/-- Python `n in hay` (substring containment). -/
def listContains (hay n : List Char) : Bool :=
  (firstIdxFrom hay n 0).isSome

/-- Does `re.MULTILINE`'s `^` hold at offset `p`? -/
def lineStart (l : List Char) (p : Nat) : Bool :=
  p == 0 || l[p-1]? == some '\n'

/-!  ### Block locator

`MERMAID_BLOCK_RE = r"^```mermaid\s*\n(.*?)\n```\s*"` with
`re.DOTALL | re.MULTILINE`, scanned by `re.finditer`.  The pattern is
simple enough that the backtracking engine's behaviour is deterministic:

* `^```mermaid` — literal at a line start;
* `\s*\n` — the engine tries the newline at every position of the maximal
  whitespace run following the literal, longest `\s*` first;
* `(.*?)\n``` ` — for the chosen newline, the group ends at the least
  position whose character is `'\n'` followed by three backticks;
* trailing `\s*` — maximal whitespace run after the closing backticks.
-/

/-- Does `\n```` occur at offset `q`? (closing-fence anchor). -/
def closerAt (l : List Char) (q : Nat) : Bool :=
  l[q]? == some '\n' && (l.drop (q+1)).take 3 == "```".data

/-- Least `q ≥ start` with a closing-fence anchor, if any. -/
def findCloserFrom (l : List Char) (start : Nat) : Option Nat :=
  (List.range' start (l.length - start)).find? (fun q => closerAt l q)

/-- Length of the maximal `\s*` run of `l` starting at offset `p`. -/
def wsLen (l : List Char) (p : Nat) : Nat :=
  ((l.drop p).takeWhile isPySpace).length

/-- Candidate positions for the `\n` of `\s*\n`, in the order the
backtracking engine tries them (longest `\s*` first). -/
def kCands (l : List Char) (base : Nat) : List Nat :=
  ((List.range' base (wsLen l base)).filter (fun k => l[k]? == some '\n')).reverse

/-- Try each `\n` candidate in turn; for the first with a closing-fence
anchor after it, return the pair (newline position, closer position). -/
def tryKs (l : List Char) : List Nat → Option (Nat × Nat)
  | [] => none
  | k :: ks =>
    match findCloserFrom l (k+1) with
    | some q => some (k, q)
    | none => tryKs l ks

/-- Attempt the block regex at offset `p`; on success return the match end
and the captured group (the block's raw source text). -/
def matchAt (l : List Char) (p : Nat) : Option (Nat × List Char) :=
  if lineStart l p && ((l.drop p).take 10 == "```mermaid".data) then
    match tryKs l (kCands l (p + 10)) with
    | some (k, q) => some (q + 4 + wsLen l (q + 4), (l.drop (k+1)).take (q - (k+1)))
    | none => none
  else none

/-- The `finditer` scan: try each position, and on a match resume at its
end.  `fuel` bounds the recursion; `l.length + 1` always suffices because
the position strictly increases. -/
def findFromFuel (l : List Char) : Nat → Nat → List ((Nat × Nat) × List Char)
  | 0, _ => []
  | fuel+1, p =>
    if l.length < p then []
    else
      match matchAt l p with
      | some (e, g) => ((p, e), g) :: findFromFuel l fuel e
      | none => findFromFuel l fuel (p+1)

/-- `find_mermaid_blocks`: all matches with their spans, in scan order. -/
def find_mermaid_blocks (l : List Char) : List ((Nat × Nat) × List Char) :=
  findFromFuel l (l.length + 1) 0

/-!  ### Rewrite engine

`MARKER_PREFIX`, `LOOKAHEAD_REPLACE`, `LOOKAHEAD_APPEND`, and the two
strategies `replace_blocks_with_images` / `add_images_after_blocks`.
The `md_file` argument of the Python functions is used only through
`md_file.stem`, which is passed here directly; `out_path` is used only
through `out_path.name`, so the pair lists carry image file names. -/

/-- The marker prefix `"<!-- mmd-rendered:"` (the source's MARKER constant). -/
def markerTag : List Char := "<!-- mmd-rendered:".data

def LOOKAHEAD_REPLACE : Nat := 600

def LOOKAHEAD_APPEND : Nat := 400

/-- End of a match of `r"^\s*!\[[^\]]*\]\([^\)]*mermaid[^\)]*\)\s*\n?"`
(with `re.MULTILINE`) at offset 0 of the lookahead, if the regex matches
there.  The backtracking engine is deterministic on this pattern:
`\s*` must end at the maximal whitespace run (`!` is not whitespace),
`[^\]]*\]` consumes up to the first `]`, the parenthesised part reaches
the first `)` and requires `mermaid` inside, and the trailing `\s*\n?`
consumes the maximal whitespace run after `)`. -/
def imgLinkEnd (la : List Char) : Option Nat :=
  let a := wsLen la 0
  if (la.drop a).take 2 == "![".data then
    match firstIdxFrom la "]".data (a + 2) with
    | some b =>
      if la[b+1]? == some '(' then
        match firstIdxFrom la ")".data (b + 2) with
        | some d =>
          if listContains (pySlice la (b+2) d) "mermaid".data then
            some (d + 1 + wsLen la (d + 1))
          else none
        | none => none
      else none
    | none => none
  else none

/-- `skip_extra` for one block in replace mode: how much text following the
block's end the cursor additionally consumes (an old marker comment, or an
old mermaid image-link line). -/
def replaceSkip (la : List Char) (name : List Char) : Nat :=
  match firstIdxFrom la (markerTag ++ name) 0 with
  | some m =>
    match firstIdxFrom la "-->".data m with
    | some em => if la[em+3]? == some '\n' then em + 4 else em + 3
    | none => 0
  | none =>
    match imgLinkEnd la with
    | some e2 => e2
    | none => 0

/-- The loop body of `replace_blocks_with_images`, with the cursor `last`
into the original text. -/
def replaceGo (l stem : List Char) : Nat → List (((Nat × Nat) × List Char) × List Char) → List Char
  | last, [] => l.drop last
  | last, ((sp, name), rel) :: rest =>
    pySlice l last sp.1 ++ "![".data ++ stem ++ " diagram](".data ++ rel ++ ")\n".data
      ++ replaceGo l stem (sp.2 + replaceSkip ((l.drop sp.2).take LOOKAHEAD_REPLACE) name) rest

/-- `replace_blocks_with_images`: substitize each block span by an image
line, consuming stale markers/links found in the 600-char lookahead. -/
def replace_blocks_with_images (l stem : List Char)
    (images_written : List ((Nat × Nat) × List Char)) (image_paths_rel : List (List Char)) : List Char :=
  replaceGo l stem 0 (images_written.zip image_paths_rel)

/-- The duplicate-detection test of append mode: target filename or marker
prefix occurs in the 400-char lookahead after the block's end. -/
def appendSkip (l : List Char) (e : Nat) (name : List Char) : Bool :=
  listContains ((l.drop e).take LOOKAHEAD_APPEND) name
    || listContains ((l.drop e).take LOOKAHEAD_APPEND) markerTag

/-- The text appended after a block in append mode: image line plus marker. -/
def appendIns (stem name rel : List Char) : List Char :=
  "\n![".data ++ stem ++ " diagram](".data ++ rel ++ ")\n".data
    ++ markerTag ++ name ++ " -->\n".data

/-- The loop body of `add_images_after_blocks`. -/
def addGo (l stem : List Char) : Nat → List (((Nat × Nat) × List Char) × List Char) → List Char
  | last, [] => l.drop last
  | last, ((sp, name), rel) :: rest =>
    pySlice l last sp.2 ++ (if appendSkip l sp.2 name then [] else appendIns stem name rel)
      ++ addGo l stem sp.2 rest

/-- `add_images_after_blocks`: keep each block and append an image link and
marker after it unless the lookahead already shows the filename or a marker. -/
def add_images_after_blocks (l stem : List Char)
    (images_written : List ((Nat × Nat) × List Char)) (image_paths_rel : List (List Char)) : List Char :=
  addGo l stem 0 (images_written.zip image_paths_rel)

/-- One full locate-and-replace pass: locate blocks, pair their spans with
the given image names, and rewrite (the process claim C1 quantifies over). -/
def locateReplace (stem : List Char) (names rels : List (List Char)) (t : List Char) : List Char :=
  replace_blocks_with_images t stem
    (((find_mermaid_blocks t).map Prod.fst).zip names) rels

/-!  ### Content namer

`hash_text(s) = hashlib.sha1(s.encode("utf-8")).hexdigest()[:10]` and the
filename `f"{md_file.stem}-mermaid-{idx}-{h}{ext}"` with
`ext = ".svg" if fmt.lower() == "svg" else ".png"`.  SHA-1 is implemented
below over `Nat` bytes/words with explicit `% 2^32` reductions. -/

/-- UTF-8 encoding of one unicode scalar (as `str.encode("utf-8")`). -/
def utf8Char (c : Char) : List Nat :=
  let v := c.toNat
  if v < 128 then [v]
  else if v < 2048 then [192 + v / 64, 128 + v % 64]
  else if v < 65536 then [224 + v / 4096, 128 + v / 64 % 64, 128 + v % 64]
  else [240 + v / 262144, 128 + v / 4096 % 64, 128 + v / 64 % 64, 128 + v % 64]

/-- UTF-8 encoding of a text. -/
def utf8Bytes : List Char → List Nat
  | [] => []
  | c :: r => utf8Char c ++ utf8Bytes r

/-- Truncation to a 32-bit word. -/
def w32 (n : Nat) : Nat := n % 4294967296

/-- 32-bit rotate left by `k`. -/
def rotl (k n : Nat) : Nat := w32 ((n <<< k) ||| (n >>> (32 - k)))

/-- Big-endian 8-byte encoding of the bit length. -/
def beBytes8 (n : Nat) : List Nat :=
  [n / 72057594037927936 % 256, n / 281474976710656 % 256,
   n / 1099511627776 % 256, n / 4294967296 % 256,
   n / 16777216 % 256, n / 65536 % 256, n / 256 % 256, n % 256]

/-- SHA-1 padding: `0x80`, zeros to 56 mod 64, then the 64-bit bit length. -/
def sha1Pad (msg : List Nat) : List Nat :=
  msg ++ [128] ++ List.replicate ((119 - msg.length % 64) % 64) 0
    ++ beBytes8 (msg.length * 8)

/-- Group bytes into big-endian 32-bit words. -/
def toWordsBE : List Nat → List Nat
  | a :: b :: c :: d :: rest => (a * 16777216 + b * 65536 + c * 256 + d) :: toWordsBE rest
  | _ => []

/-- The first `n` chunks of 64 bytes. -/
def chunksN : Nat → List Nat → List (List Nat)
  | 0, _ => []
  | k+1, l => l.take 64 :: chunksN k (l.drop 64)

/-- Message-schedule extension step, appending one more word. -/
def extWords : Nat → List Nat → List Nat
  | 0, ws => ws
  | k+1, ws =>
    extWords k (ws ++ [rotl 1 (((ws.getD (ws.length - 3) 0) ^^^ ws.getD (ws.length - 8) 0)
      ^^^ ((ws.getD (ws.length - 14) 0) ^^^ ws.getD (ws.length - 16) 0))])

/-- The SHA-1 round function for round `t`. -/
def sha1F (t b c d : Nat) : Nat :=
  if t < 20 then (b &&& c) ||| ((b ^^^ 4294967295) &&& d)
  else if t < 40 then (b ^^^ c) ^^^ d
  else if t < 60 then ((b &&& c) ||| (b &&& d)) ||| (c &&& d)
  else (b ^^^ c) ^^^ d

/-- The SHA-1 round constant for round `t`. -/
def sha1K (t : Nat) : Nat :=
  if t < 20 then 1518500249
  else if t < 40 then 1859775393
  else if t < 60 then 2400959708
  else 3395469782

/-- One SHA-1 round: state update for round `t` with schedule word `w`. -/
def roundStep (st : Nat × Nat × Nat × Nat × Nat) (tw : Nat × Nat) : Nat × Nat × Nat × Nat × Nat :=
  match st, tw with
  | (a, b, c, d, e), (t, w) =>
    (w32 (rotl 5 a + sha1F t b c d + e + sha1K t + w), a, rotl 30 b, c, d)

/-- Process one 64-byte chunk. -/
def processChunk (h : Nat × Nat × Nat × Nat × Nat) (chunk : List Nat) : Nat × Nat × Nat × Nat × Nat :=
  let ws := extWords 64 (toWordsBE chunk)
  match h, ((List.range 80).zip ws).foldl roundStep h with
  | (h0, h1, h2, h3, h4), (a, b, c, d, e) =>
    (w32 (h0 + a), w32 (h1 + b), w32 (h2 + c), w32 (h3 + d), w32 (h4 + e))

/-- SHA-1 of a byte message: the five 32-bit state words. -/
def sha1Words (msg : List Nat) : Nat × Nat × Nat × Nat × Nat :=
  (chunksN ((sha1Pad msg).length / 64) (sha1Pad msg)).foldl processChunk
    (1732584193, 4023233417, 2562383102, 271733878, 3285377520)

/-- Big-endian bytes of one state word. -/
def wordBytes (w : Nat) : List Nat :=
  [w / 16777216 % 256, w / 65536 % 256, w / 256 % 256, w % 256]

/-- The 20-byte SHA-1 digest. -/
def sha1Bytes (msg : List Nat) : List Nat :=
  match sha1Words msg with
  | (a, b, c, d, e) => wordBytes a ++ wordBytes b ++ wordBytes c ++ wordBytes d ++ wordBytes e

/-- Hex digits (as `Fin 16` values) of a byte list, big-endian per byte,
exactly the digit sequence of Python's `hexdigest()`. -/
def hexFins : List Nat → List (Fin 16)
  | [] => []
  | b :: r => ⟨b / 16 % 16, Nat.mod_lt _ (by decide)⟩ :: ⟨b % 16, Nat.mod_lt _ (by decide)⟩ :: hexFins r

/-- Lowercase hexadecimal character of one digit. -/
def hexCharF (d : Fin 16) : Char :=
  if d.val < 10 then Char.ofNat (48 + d.val) else Char.ofNat (87 + d.val)

/-- The first ten hex digits of the SHA-1 digest of the UTF-8 text. -/
def hashFins10 (code : List Char) : List (Fin 16) :=
  (hexFins (sha1Bytes (utf8Bytes code))).take 10

/-- `hash_text`: `sha1(s.encode("utf-8")).hexdigest()[:10]`. -/
def hash_text (code : List Char) : List Char :=
  ((hexFins (sha1Bytes (utf8Bytes code))).map hexCharF).take 10

/-- Is `c` a lowercase hexadecimal digit character? -/
def isLowerHexB (c : Char) : Bool :=
  ('0' ≤ c && c ≤ '9') || ('a' ≤ c && c ≤ 'f')

/-- The image file name built by `process_file`:
`f"{md_file.stem}-mermaid-{idx}-{h}{ext}"`. -/
def imageName (stem : List Char) (idx : Nat) (code : List Char) (fmt : List Char) : List Char :=
  stem ++ "-mermaid-".data ++ (Nat.repr idx).data ++ "-".data ++ hash_text code
    ++ (if fmt.map Char.toLower = "svg".data then ".svg".data else ".png".data)

/-!  ### Path resolver

The `images_dir_rel` branch of `process_file` (lines 241–250) and the
embedded path `(rel_base_from_md / image_name).as_posix()`.  `pathlib`
is modelled by its parts: parsing splits on the host separators and drops
empty and `.` components; `as_posix` joins parts with forward slashes
(`.` for an empty relative path). -/

/-- Python `str.strip()` (whitespace strip). -/
def pyStrip (l : List Char) : List Char :=
  ((l.dropWhile isPySpace).reverse.dropWhile isPySpace).reverse

/-- Path separator set of the host: `/`, plus a backslash on Windows. -/
def sepChar (windows : Bool) (c : Char) : Bool :=
  c = '/' || (windows && c = '\\')

/-- Split a character list at separators (keeping empty pieces). -/
def splitOnSep (isSep : Char → Bool) : List Char → List (List Char)
  | [] => [[]]
  | c :: rest =>
    match splitOnSep isSep rest with
    | [] => [[c]]
    | h :: t => if isSep c then [] :: h :: t else (c :: h) :: t

/-- The `parts` of a relative `pathlib.Path` built from a string. -/
def pathParts (windows : Bool) (s : List Char) : List (List Char) :=
  (splitOnSep (sepChar windows) s).filter (fun p => !(p == []) && !(p == ".".data))

/-- `as_posix()` of a relative path with the given parts. -/
def asPosix (parts : List (List Char)) : List Char :=
  match parts with
  | [] => ".".data
  | [p] => p
  | p :: rest => p ++ '/' :: asPosix rest

/-- `rel_base_from_md` per the `images_dir_rel` branches of `process_file`. -/
def rel_base_from_md (images_dir_rel stem : List Char) : List Char :=
  if (pyStrip images_dir_rel).map Char.toLower = "per-file".data then stem ++ "_images".data
  else if pyStrip images_dir_rel = [] || pyStrip images_dir_rel = ".".data then ".".data
  else images_dir_rel

/-- The path embedded in the rewritten document:
`(rel_base_from_md / image_name).as_posix()`. -/
def embeddedRelPath (windows : Bool) (images_dir_rel stem name : List Char) : List Char :=
  asPosix (pathParts windows (rel_base_from_md images_dir_rel stem) ++ pathParts windows name)

/-!  ### Document processor (per-block loop of `process_file`)

The loop over `enumerate(blocks, start=1)` (lines 256–280).  The
filesystem and renderer are abstracted by `env idx = (exists, renderOk)`
— whether `out_path.exists()` and whether `render_mermaid` succeeds — and
`relOf` maps an image name to its embedded path (computed by the path
resolver above).  The result is `images_written` (span/name pairs),
`image_paths_rel`, and the per-block reported outcomes. -/

inductive ROutcome
  | dry | skipped | written | failed
deriving DecidableEq

/-- The per-block loop of `process_file`: dry-run records an intent,
an existing target without `force` is skipped but keeps its reference,
otherwise the renderer runs and a failure is reported and dropped. -/
def processBlocks (stem fmt : List Char) (dryRun force : Bool)
    (relOf : List Char → List Char) (env : Nat → Bool × Bool) :
    Nat → List ((Nat × Nat) × List Char) →
    List ((Nat × Nat) × List Char) × List (List Char) × List (Nat × ROutcome)
  | _, [] => ([], [], [])
  | idx, (sp, code) :: rest =>
    let name := imageName stem idx code fmt
    let rel := relOf name
    let r := processBlocks stem fmt dryRun force relOf env (idx+1) rest
    if dryRun then ((sp, name) :: r.1, rel :: r.2.1, (idx, .dry) :: r.2.2)
    else if (env idx).1 && !force then ((sp, name) :: r.1, rel :: r.2.1, (idx, .skipped) :: r.2.2)
    else if (env idx).2 then ((sp, name) :: r.1, rel :: r.2.1, (idx, .written) :: r.2.2)
    else (r.1, r.2.1, (idx, .failed) :: r.2.2)

/-!  ### Checkers used in claim statements -/

/-- Spans are well formed and pairwise non-overlapping in scan order. -/
def spansSorted : List ((Nat × Nat) × List Char) → Bool
  | [] => true
  | [b] => decide (b.1.1 < b.1.2)
  | a :: b :: r => decide (a.1.1 < a.1.2) && decide (a.1.2 ≤ b.1.1) && spansSorted (b :: r)

/-- Does any closing-fence anchor `\n```` occur in the text? -/
def hasCloser (l : List Char) : Bool :=
  (List.range l.length).any (fun q => closerAt l q)

/-- The lines of a text (split at newline characters). -/
def linesOf (l : List Char) : List (List Char) :=
  splitOnSep (fun c => c = '\n') l

/-!  ## Helper lemmas -/

theorem firstIdxAux_eq_none (hay n : List Char) (ps : List Nat)
    (h : firstIdxAux hay n ps = none) : ∀ i ∈ ps, ¬ n.isPrefixOf (hay.drop i) := by
  induction ps with
  | nil => intro i hi; cases hi
  | cons a as ih =>
    intro i hi
    unfold firstIdxAux at h
    by_cases hp : n.isPrefixOf (hay.drop a)
    · simp [hp] at h
    · simp [hp] at h
      rcases List.mem_cons.mp hi with rfl | hmem
      · exact hp
      · exact ih h i hmem

theorem listContains_of_drop (hay n : List Char) (i : Nat)
    (hp : n.isPrefixOf (hay.drop i)) (hn : n ≠ []) : listContains hay n = true := by
  have hi : i ≤ hay.length := by
    by_contra hgt
    push_neg at hgt
    rw [List.drop_eq_nil_of_le (Nat.le_of_lt hgt)] at hp
    cases n with
    | nil => exact hn rfl
    | cons c cs => simp [List.isPrefixOf] at hp
  unfold listContains firstIdxFrom
  cases hf : firstIdxAux hay n (searchPositions hay 0) with
  | some v => simp
  | none =>
    exfalso
    refine firstIdxAux_eq_none hay n _ hf i ?_ hp
    unfold searchPositions
    simpa [List.mem_range'_1] using Nat.lt_succ_of_le hi

theorem tryKs_eq_some (l : List Char) (ks : List Nat) (k q : Nat)
    (h : tryKs l ks = some (k, q)) : k ∈ ks ∧ findCloserFrom l (k+1) = some q := by
  induction ks with
  | nil => simp [tryKs] at h
  | cons a as ih =>
    unfold tryKs at h
    cases hf : findCloserFrom l (a+1) with
    | some q0 =>
      rw [hf] at h
      simp only [Option.some.injEq, Prod.mk.injEq] at h
      obtain ⟨rfl, rfl⟩ := h
      exact ⟨List.mem_cons_self _ _, hf⟩
    | none =>
      rw [hf] at h
      obtain ⟨hm, he⟩ := ih h
      exact ⟨List.mem_cons_of_mem _ hm, he⟩

theorem findCloserFrom_eq_some (l : List Char) (start q : Nat)
    (h : findCloserFrom l start = some q) :
    start ≤ q ∧ q < l.length ∧ closerAt l q = true := by
  unfold findCloserFrom at h
  have hq := List.find?_some h
  have hmem := List.mem_of_find?_eq_some h
  rw [List.mem_range'_1] at hmem
  exact ⟨hmem.1, by omega, hq⟩

theorem kCands_mem (l : List Char) (base k : Nat) (h : k ∈ kCands l base) :
    base ≤ k ∧ k < base + wsLen l base ∧ l[k]? = some '\n' := by
  unfold kCands at h
  rw [List.mem_reverse, List.mem_filter, List.mem_range'_1] at h
  obtain ⟨⟨h1, h2⟩, h3⟩ := h
  exact ⟨h1, h2, by simpa [beq_iff_eq] using h3⟩

theorem take_takeWhile_of_le (P : Char → Bool) :
    ∀ (xs : List Char) (n : Nat), n ≤ (xs.takeWhile P).length →
      xs.take n = (xs.takeWhile P).take n := by
  intro xs
  induction xs with
  | nil => intro n _; simp
  | cons c r ih =>
    intro n hn
    by_cases hP : P c
    · rw [List.takeWhile_cons_of_pos hP] at hn ⊢
      cases n with
      | zero => simp
      | succ m => simp only [List.take_succ_cons]; rw [ih m (by simpa using hn)]
    · rw [List.takeWhile_cons_of_neg hP] at hn
      simp at hn
      subst hn
      simp

theorem all_takeWhile_sat (P : Char → Bool) :
    ∀ (xs : List Char), (xs.takeWhile P).all P = true := by
  intro xs
  induction xs with
  | nil => simp
  | cons c r ih =>
    by_cases hP : P c
    · rw [List.takeWhile_cons_of_pos hP]; simp [hP]
    · rw [List.takeWhile_cons_of_neg hP]; simp

theorem ws_window_all (l : List Char) (base k : Nat) (h : k ≤ base + wsLen l base) :
    (pySlice l base k).all isPySpace = true := by
  unfold pySlice
  have hle : k - base ≤ ((l.drop base).takeWhile isPySpace).length := by
    unfold wsLen at h; omega
  rw [take_takeWhile_of_le isPySpace (l.drop base) (k - base) hle]
  rw [List.all_eq_true]
  intro x hx
  have hx2 := List.mem_of_mem_take hx
  have := List.all_eq_true.mp (all_takeWhile_sat isPySpace (l.drop base)) x hx2
  exact this

theorem matchAt_eq_some (l : List Char) (p e : Nat) (g : List Char)
    (h : matchAt l p = some (e, g)) :
    lineStart l p = true ∧ (l.drop p).take 10 = "```mermaid".data ∧
    ∃ k q, p + 10 ≤ k ∧ k < q ∧ l[k]? = some '\n' ∧
      (pySlice l (p+10) k).all isPySpace = true ∧
      l[q]? = some '\n' ∧ (l.drop (q+1)).take 3 = "```".data ∧
      q < e ∧ e = q + 4 + wsLen l (q+4) ∧ g = (l.drop (k+1)).take (q - (k+1)) := by
  unfold matchAt at h
  by_cases hc : lineStart l p && ((l.drop p).take 10 == "```mermaid".data)
  case neg => simp [hc] at h
  case pos =>
    rw [if_pos hc] at h
    rw [Bool.and_eq_true] at hc
    obtain ⟨hls, hop⟩ := hc
    cases ht : tryKs l (kCands l (p + 10)) with
    | none => rw [ht] at h; cases h
    | some kq =>
      obtain ⟨k, q⟩ := kq
      rw [ht] at h
      simp only [Option.some.injEq, Prod.mk.injEq] at h
      obtain ⟨he, hg⟩ := h
      obtain ⟨hkmem, hcl⟩ := tryKs_eq_some l _ k q ht
      obtain ⟨hk1, hk2, hk3⟩ := kCands_mem l (p+10) k hkmem
      obtain ⟨hq1, hq2, hq3⟩ := findCloserFrom_eq_some l (k+1) q hcl
      rw [closerAt, Bool.and_eq_true] at hq3
      obtain ⟨hq4, hq5⟩ := hq3
      refine ⟨hls, by simpa [beq_iff_eq] using hop, k, q, hk1, by omega, hk3,
        ws_window_all l (p+10) k (by omega), by simpa [beq_iff_eq] using hq4,
        by simpa [beq_iff_eq] using hq5, by omega, he.symm, hg.symm⟩

theorem matchAt_lt (l : List Char) (p e : Nat) (g : List Char)
    (h : matchAt l p = some (e, g)) : p < e := by
  obtain ⟨-, -, k, q, h1, h2, -, -, -, -, h7, -, -⟩ := matchAt_eq_some l p e g h
  omega

theorem findFromFuel_mem (l : List Char) :
    ∀ (fuel p : Nat), l.length + 1 ≤ fuel + p →
      ∀ b ∈ findFromFuel l fuel p, p ≤ b.1.1 ∧ matchAt l b.1.1 = some (b.1.2, b.2) := by
  intro fuel
  induction fuel with
  | zero => intro p hf b hb; simp [findFromFuel] at hb
  | succ f ih =>
    intro p hf b hb
    unfold findFromFuel at hb
    by_cases hl : l.length < p
    · simp [hl] at hb
    · rw [if_neg hl] at hb
      cases hm : matchAt l p with
      | some eg =>
        obtain ⟨e, g⟩ := eg
        rw [hm] at hb
        rcases List.mem_cons.mp hb with rfl | hmem
        · exact ⟨Nat.le_refl _, by simpa using hm⟩
        · have hlt : p < e := matchAt_lt l p e g hm
          have hrec := ih e (by omega) b hmem
          exact ⟨by omega, hrec.2⟩
      | none =>
        rw [hm] at hb
        have hrec := ih (p+1) (by omega) b hb
        exact ⟨by omega, hrec.2⟩

theorem spansSorted_cons_of (x : (Nat × Nat) × List Char)
    (xs : List ((Nat × Nat) × List Char)) (hx : x.1.1 < x.1.2)
    (hall : ∀ b ∈ xs, x.1.2 ≤ b.1.1) (hxs : spansSorted xs = true) :
    spansSorted (x :: xs) = true := by
  cases xs with
  | nil => simp [spansSorted, hx]
  | cons y ys =>
    have hy : x.1.2 ≤ y.1.1 := hall y (List.mem_cons_self _ _)
    simp [spansSorted, hx, hy, hxs]

theorem findFromFuel_sorted (l : List Char) :
    ∀ (fuel p : Nat), l.length + 1 ≤ fuel + p →
      spansSorted (findFromFuel l fuel p) = true := by
  intro fuel
  induction fuel with
  | zero => intro p hf; simp [findFromFuel, spansSorted]
  | succ f ih =>
    intro p hf
    unfold findFromFuel
    by_cases hl : l.length < p
    · simp [hl, spansSorted]
    · rw [if_neg hl]
      cases hm : matchAt l p with
      | some eg =>
        obtain ⟨e, g⟩ := eg
        have hlt : p < e := matchAt_lt l p e g hm
        refine spansSorted_cons_of _ _ hlt ?_ (ih e (by omega))
        intro b hb
        exact (findFromFuel_mem l f e (by omega) b hb).1
      | none => exact ih (p+1) (by omega)

theorem matchAt_eq_none_of_no_closer (l : List Char) (hnc : hasCloser l = false)
    (p : Nat) : matchAt l p = none := by
  have hcl : ∀ s, findCloserFrom l s = none := by
    intro s
    cases hf : findCloserFrom l s with
    | none => rfl
    | some q =>
      exfalso
      obtain ⟨-, hq2, hq3⟩ := findCloserFrom_eq_some l s q hf
      rw [hasCloser] at hnc
      have := List.any_eq_false.mp hnc q (List.mem_range.mpr hq2)
      exact this hq3
  have htk : ∀ ks, tryKs l ks = none := by
    intro ks
    induction ks with
    | nil => rfl
    | cons a as ih => unfold tryKs; rw [hcl (a+1)]; exact ih
  unfold matchAt
  by_cases hc : lineStart l p && ((l.drop p).take 10 == "```mermaid".data)
  · rw [if_pos hc, htk]
  · rw [if_neg hc]

theorem findFromFuel_nil_of_none (l : List Char) (h : ∀ p, matchAt l p = none) :
    ∀ (fuel p : Nat), findFromFuel l fuel p = [] := by
  intro fuel
  induction fuel with
  | zero => intro p; rfl
  | succ f ih =>
    intro p
    unfold findFromFuel
    by_cases hl : l.length < p
    · simp [hl]
    · rw [if_neg hl, h p]; exact ih (p+1)

/-!  ## Claim theorems -/

/-- C5: `find_mermaid_blocks` is a pure function of the text returning a
finite sequence of blocks whose spans are non-empty, non-overlapping and
sorted by increasing start offset, matching left-to-right scan order. -/
theorem C5_blocks_sorted_nonoverlapping (t : List Char) :
    spansSorted (find_mermaid_blocks t) = true :=
  findFromFuel_sorted t (t.length + 1) 0 (by omega)

/-- C6 (amended): every recognized block opens with a literal
triple-backtick-mermaid fence at a line start, followed by optional
whitespace up to a newline; its closing triple-backtick fence begins at a
line start (immediately after a newline) inside the span — but need not be
alone on its line; and a text with no newline-plus-triple-backtick closer
anywhere yields no block at all. -/
theorem C6_amended_fence_recognition (t : List Char) :
    (∀ b ∈ find_mermaid_blocks t,
      lineStart t b.1.1 = true ∧ (t.drop b.1.1).take 10 = "```mermaid".data ∧
      ∃ k q, b.1.1 + 10 ≤ k ∧ k < q ∧ t[k]? = some '\n' ∧
        (pySlice t (b.1.1 + 10) k).all isPySpace = true ∧
        t[q]? = some '\n' ∧ (t.drop (q+1)).take 3 = "```".data ∧ q < b.1.2) ∧
    (hasCloser t = false → find_mermaid_blocks t = []) := by
  constructor
  · intro b hb
    have h := (findFromFuel_mem t (t.length + 1) 0 (by omega) b hb).2
    obtain ⟨h1, h2, k, q, h3, h4, h5, h6, h7, h8, h9, -, -⟩ :=
      matchAt_eq_some t b.1.1 b.1.2 b.2 h
    exact ⟨h1, h2, k, q, h3, h4, h5, h6, h7, h8, h9⟩
  · intro hnc
    exact findFromFuel_nil_of_none t (matchAt_eq_none_of_no_closer t hnc) _ _

/-- C6 (counterexample): the claim says a block is recognized only when it
is closed by a bare triple-backtick fence alone on its own line; but
`"```mermaid\na\n```x"` contains no such line and still yields a block
(the regex tolerates text directly after the closing backticks). -/
theorem C6_counterexample_closer_not_alone :
    find_mermaid_blocks "```mermaid\na\n```x".data = [((0, 16), "a".data)] ∧
    (∀ line ∈ linesOf "```mermaid\na\n```x".data, line ≠ "```".data) := by
  exact ⟨by decide, by decide⟩

/-- C6 (witness): the amended theorem applied to concrete texts — a block
of `"```mermaid\na\n```\n"` starts at a line start, and an unterminated
fence (`"```mermaid\nabc"`, no closer) produces no block. -/
theorem C6_witness :
    lineStart "```mermaid\na\n```\n".data 0 = true ∧
    find_mermaid_blocks "```mermaid\nabc".data = [] := by
  constructor
  · exact (((C6_amended_fence_recognition "```mermaid\na\n```\n".data).1
      ((0, 17), "a".data) (by decide))).1
  · exact (C6_amended_fence_recognition "```mermaid\nabc".data).2 (by decide)

theorem replace_empty_id (t stem : List Char) (rels : List (List Char)) :
    replace_blocks_with_images t stem [] rels = t := by
  simp [replace_blocks_with_images, replaceGo]

theorem add_empty_id (t stem : List Char) (rels : List (List Char)) :
    add_images_after_blocks t stem [] rels = t := by
  simp [add_images_after_blocks, addGo]

theorem locateReplace_of_no_blocks (stem t : List Char) (names rels : List (List Char))
    (h : find_mermaid_blocks t = []) : locateReplace stem names rels t = t := by
  unfold locateReplace
  rw [h]
  exact replace_empty_id t stem rels

/-- C1 (counterexample): replace-mode rewrite is not idempotent.  In
`"```mermaid\nA\n``` ```mermaid\nB\n```rest\n"` the first block's trailing
whitespace consumption ends right before the second `"```mermaid"`, which
is not at a line start; the rewrite replaces the first block by an image
line ending in a newline, which promotes the leftover fence to a line
start, so the second locate-and-replace pass finds a new block and
rewrites again. -/
theorem C1_counterexample_replace_not_idempotent :
    locateReplace "d".data ["n.png".data] ["r.png".data]
        (locateReplace "d".data ["n.png".data] ["r.png".data]
          "```mermaid\nA\n``` ```mermaid\nB\n```rest\n".data)
      ≠ locateReplace "d".data ["n.png".data] ["r.png".data]
          "```mermaid\nA\n``` ```mermaid\nB\n```rest\n".data := by decide

/-- C1 (amended): the second locate-and-replace application returns its
input byte-identically whenever locating on the once-rewritten text finds
no blocks (which a rewrite that leaves no fence material guarantees; a
closing fence followed on the same line by a new opening fence can break
it, as the counterexample shows). -/
theorem C1_amended_replace_idempotent (stem t : List Char) (names rels : List (List Char))
    (h : find_mermaid_blocks (locateReplace stem names rels t) = []) :
    locateReplace stem names rels (locateReplace stem names rels t)
      = locateReplace stem names rels t :=
  locateReplace_of_no_blocks stem _ names rels h

/-- C1 (witness): the amended theorem at a concrete one-block document
whose rewrite leaves no blocks. -/
theorem C1_witness :
    find_mermaid_blocks (locateReplace "d".data ["n.png".data] ["r.png".data]
        "```mermaid\na\n```\n".data) = [] ∧
    locateReplace "d".data ["n.png".data] ["r.png".data]
        (locateReplace "d".data ["n.png".data] ["r.png".data] "```mermaid\na\n```\n".data)
      = locateReplace "d".data ["n.png".data] ["r.png".data] "```mermaid\na\n```\n".data :=
  ⟨by decide, C1_amended_replace_idempotent "d".data "```mermaid\na\n```\n".data
    ["n.png".data] ["r.png".data] (by decide)⟩

/-- C9 (counterexample): a run in which no block produced a file-writing
outcome need not leave the text unchanged: a block whose target image
already exists (and `force` unset) is reported `skipped` — no file is
written — yet its span/reference pair is kept and replace mode still
rewrites the block into an image line. -/
theorem C9_counterexample_skipped_run_still_rewrites :
    (∀ o ∈ (processBlocks "d".data "png".data false false (fun _ => "r.png".data)
        (fun _ => (true, true)) 1
        (find_mermaid_blocks "```mermaid\nA\n```\n".data)).2.2,
      o.2 ≠ ROutcome.written) ∧
    replace_blocks_with_images "```mermaid\nA\n```\n".data "d".data
        (processBlocks "d".data "png".data false false (fun _ => "r.png".data)
          (fun _ => (true, true)) 1
          (find_mermaid_blocks "```mermaid\nA\n```\n".data)).1
        (processBlocks "d".data "png".data false false (fun _ => "r.png".data)
          (fun _ => (true, true)) 1
          (find_mermaid_blocks "```mermaid\nA\n```\n".data)).2.1
      ≠ "```mermaid\nA\n```\n".data := by
  exact ⟨by decide, by decide⟩

/-- C9 (amended): when the run produces no (span, image reference) pairs at
all — e.g. every block's render failed — both rewrite strategies return
the text byte-for-byte unchanged, so the processor skips writing back; a
run whose blocks are merely skipped-as-existing keeps their pairs and can
still change the text. -/
theorem C9_amended_empty_pairs_identity (t stem : List Char) (rels : List (List Char)) :
    replace_blocks_with_images t stem [] rels = t ∧
    add_images_after_blocks t stem [] rels = t :=
  ⟨replace_empty_id t stem rels, add_empty_id t stem rels⟩

theorem add_single_eq (u stem name rel : List Char) (s e : Nat) :
    add_images_after_blocks u stem [((s, e), name)] [rel]
      = u.take e ++ (if appendSkip u e name then [] else appendIns stem name rel) ++ u.drop e := by
  simp [add_images_after_blocks, addGo, pySlice]

/-- C10: in append mode, if the literal marker prefix occurs anywhere in
the 400-character window after a block's end — regardless of which image
filename it names — nothing is inserted for that block.  In particular a
stale marker from a previous run (naming the previous content's filename)
suppresses appending the link for the block's new filename. -/
theorem C10_marker_prefix_suppresses_append (t stem name rel : List Char) (s e : Nat)
    (h : listContains ((t.drop e).take LOOKAHEAD_APPEND) markerTag = true) :
    add_images_after_blocks t stem [((s, e), name)] [rel] = t := by
  have hsk : appendSkip t e name = true := by
    unfold appendSkip
    rw [h]
    simp
  rw [add_single_eq, hsk]
  simp

/-- C10 (witness): a document whose block is followed by a stale marker
naming a different image file; the append run leaves it untouched. -/
theorem C10_witness :
    listContains
        (("```mermaid\na\n```\n<!-- mmd-rendered:old-1-abc.png -->\n".data.drop 17).take
          LOOKAHEAD_APPEND) markerTag = true ∧
    add_images_after_blocks "```mermaid\na\n```\n<!-- mmd-rendered:old-1-abc.png -->\n".data
        "d".data [((0, 17), "new.png".data)] ["new.png".data]
      = "```mermaid\na\n```\n<!-- mmd-rendered:old-1-abc.png -->\n".data :=
  ⟨by decide, C10_marker_prefix_suppresses_append
    "```mermaid\na\n```\n<!-- mmd-rendered:old-1-abc.png -->\n".data
    "d".data "new.png".data "new.png".data 0 17 (by decide)⟩

set_option maxRecDepth 40000 in
/-- C2 (counterexample): append-after applied twice with the same inputs is
not always a no-op.  With an image reference 400 characters long, the
appended link pushes the marker beyond the 400-character lookahead, so the
second application fails to see it and inserts a duplicate. -/
theorem C2_counterexample_append_not_idempotent :
    add_images_after_blocks
        (add_images_after_blocks "```mermaid\nA\n```".data "d".data
          [((0, 16), "x.png".data)] [List.replicate 400 'z'])
        "d".data [((0, 16), "x.png".data)] [List.replicate 400 'z']
      ≠ add_images_after_blocks "```mermaid\nA\n```".data "d".data
          [((0, 16), "x.png".data)] [List.replicate 400 'z'] := by decide

/-- C2 (amended): append-after applied twice with the same inputs is a
no-op on the second application provided the appended material fits the
400-character lookahead: for a single block with `e` inside the text and
`stem.length + rel.length ≤ 367`, the marker appended by the first
application begins within the window, so the second inserts nothing. -/
theorem drop_append_len (A B : List Char) (e : Nat) (h : A.length = e) :
    (A ++ B).drop e = B := by
  subst h
  exact List.drop_left A B

theorem listContains_take_of_middle (A M Y : List Char) (n : Nat)
    (hM : M ≠ []) (h : A.length + M.length ≤ n) :
    listContains ((A ++ (M ++ Y)).take n) M = true := by
  refine listContains_of_drop _ _ A.length ?_ hM
  rw [List.take_append_eq_append_take,
    List.take_of_length_le (l := A) (by omega),
    List.drop_left,
    List.take_append_eq_append_take,
    List.take_of_length_le (l := M) (by omega)]
  exact List.isPrefixOf_iff_prefix.mpr (List.prefix_append _ _)

theorem C2_amended_append_idempotent_within_window (t stem name rel : List Char)
    (s e : Nat) (he : e ≤ t.length) (hlen : stem.length + rel.length ≤ 367) :
    add_images_after_blocks
        (add_images_after_blocks t stem [((s, e), name)] [rel]) stem [((s, e), name)] [rel]
      = add_images_after_blocks t stem [((s, e), name)] [rel] := by
  by_cases hskip : appendSkip t e name = true
  · have h1 : add_images_after_blocks t stem [((s, e), name)] [rel] = t := by
      rw [add_single_eq, hskip]
      simp
    rw [h1]
    exact h1
  · have h1 : add_images_after_blocks t stem [((s, e), name)] [rel]
        = t.take e ++ appendIns stem name rel ++ t.drop e := by
      rw [add_single_eq, if_neg hskip]
    have hA3 : ("\n![".data : List Char).length = 3 := rfl
    have hA10 : (" diagram](".data : List Char).length = 10 := rfl
    have hA2 : (")\n".data : List Char).length = 2 := rfl
    have hM18 : markerTag.length = 18 := rfl
    have hAlen : ("\n![".data ++ stem ++ " diagram](".data ++ rel ++ ")\n".data).length
        = 15 + stem.length + rel.length := by
      simp [List.length_append, hA3, hA10, hA2]
      omega
    have htake : (t.take e).length = e := by
      simp [List.length_take]
      omega
    have hwin : listContains
        (((t.take e ++ appendIns stem name rel ++ t.drop e).drop e).take LOOKAHEAD_APPEND)
        markerTag = true := by
      rw [List.append_assoc, drop_append_len (t.take e) _ e htake]
      have hre : appendIns stem name rel ++ t.drop e
          = ("\n![".data ++ stem ++ " diagram](".data ++ rel ++ ")\n".data)
            ++ (markerTag ++ (name ++ " -->\n".data ++ t.drop e)) := by
        simp [appendIns, List.append_assoc]
      rw [hre]
      refine listContains_take_of_middle _ _ _ _ (by decide) ?_
      rw [hAlen, hM18]
      unfold LOOKAHEAD_APPEND
      omega
    have hsk1 : appendSkip (t.take e ++ appendIns stem name rel ++ t.drop e) e name = true := by
      unfold appendSkip
      rw [hwin]
      simp
    rw [h1, add_single_eq, hsk1]
    simp

/-- C2 (witness): the amended theorem at a concrete one-block document and
a short image reference. -/
theorem C2_witness :
    (16 ≤ "```mermaid\na\n```".data.length
      ∧ "d".data.length + "r.png".data.length ≤ 367) ∧
    add_images_after_blocks
        (add_images_after_blocks "```mermaid\na\n```".data "d".data
          [((0, 16), "n.png".data)] ["r.png".data])
        "d".data [((0, 16), "n.png".data)] ["r.png".data]
      = add_images_after_blocks "```mermaid\na\n```".data "d".data
          [((0, 16), "n.png".data)] ["r.png".data] :=
  ⟨⟨by decide, by decide⟩,
    C2_amended_append_idempotent_within_window "```mermaid\na\n```".data "d".data
      "n.png".data "r.png".data 0 16 (by decide) (by decide)⟩

theorem hexFins_length (bs : List Nat) : (hexFins bs).length = 2 * bs.length := by
  induction bs with
  | nil => rfl
  | cons b r ih => simp [hexFins, ih]; omega

theorem sha1Bytes_length (msg : List Nat) : (sha1Bytes msg).length = 20 := by
  rcases h : sha1Words msg with ⟨a, b, c, d, e⟩
  simp [sha1Bytes, h, wordBytes]

theorem hash_text_length (code : List Char) : (hash_text code).length = 10 := by
  rw [hash_text, List.length_take, List.length_map, hexFins_length, sha1Bytes_length]
  decide

theorem hash_text_hex (code : List Char) : (hash_text code).all isLowerHexB = true := by
  rw [List.all_eq_true]
  intro c hc
  have hm : c ∈ (hexFins (sha1Bytes (utf8Bytes code))).map hexCharF :=
    List.mem_of_mem_take hc
  obtain ⟨d, -, rfl⟩ := List.mem_map.mp hm
  have hx : ∀ d0 : Fin 16, isLowerHexB (hexCharF d0) = true := by decide
  exact hx d

theorem hash_text_eq_map (code : List Char) :
    hash_text code = (hashFins10 code).map hexCharF := by
  rw [hash_text, hashFins10, List.map_take]

theorem hashFins10_length (code : List Char) : (hashFins10 code).length = 10 := by
  rw [hashFins10, List.length_take, hexFins_length, sha1Bytes_length]
  decide

/-- C3 (counterexample): the generated filename for a concrete block uses
the literal token `mermaid`, not `diagram` as the specified convention
`{stem}-diagram-{index}-{hash}.{ext}` requires: its first 14 characters
are `doc-mermaid-1-`, and no choice of hash makes it match the
`doc-diagram-1-` shape. -/
theorem C3_counterexample_filename_token_is_mermaid :
    (imageName "doc".data 1 "graph TD".data "png".data).take 14 = "doc-mermaid-1-".data ∧
    ¬ ∃ h : List Char, imageName "doc".data 1 "graph TD".data "png".data
        = "doc".data ++ "-diagram-".data ++ (Nat.repr 1).data ++ "-".data ++ h ++ ".png".data := by
  constructor
  · decide
  · rintro ⟨h, heq⟩
    rw [show ((("doc".data ++ "-diagram-".data) ++ (Nat.repr 1).data) ++ "-".data : List Char)
      = "doc-diagram-1-".data from by decide, List.append_assoc] at heq
    have h14 := congrArg (List.take 14) heq
    rw [List.take_append_eq_append_take] at h14
    simp only [show List.take 14 ("doc-diagram-1-".data : List Char)
        = "doc-diagram-1-".data from by decide,
      show ((14 : Nat) - ("doc-diagram-1-".data : List Char).length) = 0 from by decide,
      List.take_zero, List.append_nil] at h14
    rw [show List.take 14 (imageName "doc".data 1 "graph TD".data "png".data)
      = "doc-mermaid-1-".data from by decide] at h14
    exact absurd h14 (by decide)

/-- C3 (amended): for every stem, 1-based index and block source, the
generated filename is `{stem}-mermaid-{index}-{hash}.{ext}` — with the
literal token `mermaid` rather than the specified `diagram` — where the
hash is a 10-character lowercase-hexadecimal truncation of the SHA-1
digest of the UTF-8 source, and the extension is `.svg` or `.png` per the
requested format. -/
theorem C3_amended_filename_form (stem : List Char) (idx : Nat) (code : List Char) :
    ∃ h : List Char, h.length = 10 ∧ h.all isLowerHexB = true ∧
      imageName stem idx code "png".data
        = stem ++ "-mermaid-".data ++ (Nat.repr idx).data ++ "-".data ++ h ++ ".png".data ∧
      imageName stem idx code "svg".data
        = stem ++ "-mermaid-".data ++ (Nat.repr idx).data ++ "-".data ++ h ++ ".svg".data := by
  refine ⟨hash_text code, hash_text_length code, hash_text_hex code, ?_, ?_⟩
  · rw [imageName, if_neg (by decide)]
  · rw [imageName, if_pos (by decide)]

/-- C4 (counterexample): it is not true that changing the diagram source
always changes the filename: the hash is a 40-bit truncation, so by the
pigeonhole principle two distinct sources exist whose filenames (same
stem, index and format) coincide. -/
theorem C4_counterexample_distinct_sources_can_collide :
    ¬ (∀ s s' : List Char, s ≠ s' →
        imageName "x".data 1 s "png".data ≠ imageName "x".data 1 s' "png".data) := by
  intro hclaim
  obtain ⟨a, b, hne, hfe⟩ := Finite.exists_ne_map_eq_of_infinite
    (fun (code : List Char) (i : Fin 10) => (hashFins10 code).getD i.val 0)
  apply hclaim a b hne
  have hfins : hashFins10 a = hashFins10 b := by
    apply List.ext_getElem (by rw [hashFins10_length, hashFins10_length])
    intro i h1 h2
    have hi : i < 10 := by rwa [hashFins10_length] at h1
    have hgi := congrFun hfe ⟨i, hi⟩
    simpa [List.getD_eq_getElem?_getD, List.getElem?_eq_getElem h1,
      List.getElem?_eq_getElem h2] using hgi
  have hhash : hash_text a = hash_text b := by
    rw [hash_text_eq_map, hash_text_eq_map, hfins]
  rw [imageName, imageName, hhash]

/-- C4 (amended): the namer is deterministic — identical inputs always
produce the identical filename — and with stem, index and format fixed the
filename determines the truncated hash, so filenames coincide only when
the 10-character truncated SHA-1 digests coincide (which distinct sources
can achieve only by colliding in those 40 bits). -/
theorem C4_amended_determinism_and_hash_discrimination :
    (∀ (d : List Char) (i : Nat) (s f : List Char), imageName d i s f = imageName d i s f) ∧
    (∀ (d : List Char) (i : Nat) (s s' f : List Char),
      imageName d i s f = imageName d i s' f → hash_text s = hash_text s') := by
  refine ⟨fun _ _ _ _ => rfl, fun d i s s' f heq => ?_⟩
  rw [imageName, imageName] at heq
  have h1 := List.append_cancel_right heq
  exact List.append_cancel_left h1

/-- C4 (witness): the amended theorem applied at a concrete input (with
the filename equality hypothesis discharged reflexively). -/
theorem C4_witness :
    (imageName "a".data 1 "g".data "png".data = imageName "a".data 1 "g".data "png".data) ∧
    hash_text "g".data = hash_text "g".data :=
  ⟨rfl, C4_amended_determinism_and_hash_discrimination.2 "a".data 1 "g".data "g".data
    "png".data rfl⟩

theorem splitOnSep_ne_nil (isSep : Char → Bool) (l : List Char) :
    splitOnSep isSep l ≠ [] := by
  cases l with
  | nil => simp [splitOnSep]
  | cons c r =>
    rw [splitOnSep]
    cases splitOnSep isSep r with
    | nil => simp
    | cons h t =>
      by_cases hc : isSep c
      · simp [hc]
      · simp [hc]

theorem splitOnSep_sepfree (isSep : Char → Bool) (l : List Char)
    (h : ∀ c ∈ l, isSep c = false) : splitOnSep isSep l = [l] := by
  induction l with
  | nil => rfl
  | cons c r ih =>
    have hc : isSep c = false := h c (List.mem_cons_self _ _)
    have hr := ih (fun x hx => h x (List.mem_cons_of_mem _ hx))
    rw [splitOnSep, hr]
    simp [hc]

theorem splitOnSep_parts_sepfree (isSep : Char → Bool) :
    ∀ (l : List Char), ∀ p ∈ splitOnSep isSep l, ∀ c ∈ p, isSep c = false := by
  intro l
  induction l with
  | nil =>
    intro p hp c hc
    simp [splitOnSep] at hp
    subst hp
    cases hc
  | cons a r ih =>
    intro p hp c hc
    rw [splitOnSep] at hp
    rcases hs : splitOnSep isSep r with - | ⟨h0, t⟩
    · exact absurd hs (splitOnSep_ne_nil isSep r)
    · rw [hs] at hp
      change p ∈ (if isSep a then [] :: h0 :: t else (a :: h0) :: t) at hp
      by_cases ha : isSep a
      · rw [if_pos ha] at hp
        rcases List.mem_cons.mp hp with rfl | hp2
        · cases hc
        · exact ih p (by rw [hs]; exact hp2) c hc
      · rw [if_neg ha] at hp
        rcases List.mem_cons.mp hp with rfl | hp2
        · rcases List.mem_cons.mp hc with rfl | hc2
          · exact Bool.not_eq_true _ ▸ (by simpa using ha)
          · exact ih h0 (by rw [hs]; exact List.mem_cons_self _ _) c hc2
        · exact ih p (by rw [hs]; exact List.mem_cons_of_mem _ hp2) c hc

theorem pathParts_single (w : Bool) (l : List Char) (hne : l ≠ []) (hdot : l ≠ ".".data)
    (h : ∀ c ∈ l, sepChar w c = false) : pathParts w l = [l] := by
  rw [pathParts, splitOnSep_sepfree _ _ h]
  have h1 : (l == ([] : List Char)) = false := beq_eq_false_iff_ne.mpr hne
  have h2 : (l == ".".data) = false := beq_eq_false_iff_ne.mpr hdot
  simp [List.filter, h1, h2]

theorem asPosix_chars : ∀ (parts : List (List Char)) (c : Char), c ∈ asPosix parts →
    c = '/' ∨ c = '.' ∨ ∃ p ∈ parts, c ∈ p := by
  intro parts
  induction parts with
  | nil =>
    intro c hc
    rw [asPosix] at hc
    rcases List.mem_cons.mp hc with rfl | h2
    · right; left; rfl
    · cases h2
  | cons p rest ih =>
    intro c hc
    cases rest with
    | nil =>
      rw [asPosix] at hc
      exact Or.inr (Or.inr ⟨p, List.mem_cons_self _ _, hc⟩)
    | cons y t =>
      have hrfl : asPosix (p :: y :: t) = p ++ '/' :: asPosix (y :: t) := rfl
      rw [hrfl] at hc
      rcases List.mem_append.mp hc with h1 | h2
      · exact Or.inr (Or.inr ⟨p, List.mem_cons_self _ _, h1⟩)
      · rcases List.mem_cons.mp h2 with rfl | h3
        · exact Or.inl rfl
        · rcases ih c h3 with h4 | h4 | ⟨q, hq, hcq⟩
          · exact Or.inl h4
          · exact Or.inr (Or.inl h4)
          · exact Or.inr (Or.inr ⟨q, List.mem_cons_of_mem _ hq, hcq⟩)

/-- C7: the embedded path obeys the placement contract — per-file sibling
placement embeds exactly `{stem}_images/{filename}`, same-directory
placement (empty or `.`) embeds just the filename, and on a
backslash-separated host every embedded path is free of backslashes
(forward slashes are the only separators ever embedded). -/
theorem C7_embedded_path_contract (w : Bool) (dir stem name : List Char)
    (hstem : ∀ c ∈ stem, c ≠ '/' ∧ c ≠ '\\')
    (hname : ∀ c ∈ name, c ≠ '/' ∧ c ≠ '\\')
    (hn1 : name ≠ []) (hn2 : name ≠ ".".data) :
    ((pyStrip dir).map Char.toLower = "per-file".data →
      embeddedRelPath w dir stem name = stem ++ "_images/".data ++ name) ∧
    (pyStrip dir = [] ∨ pyStrip dir = ".".data →
      embeddedRelPath w dir stem name = name) ∧
    (∀ c ∈ embeddedRelPath true dir stem name, c ≠ '\\') := by
  have sfname : ∀ c ∈ name, sepChar w c = false := by
    intro c hc
    obtain ⟨h1, h2⟩ := hname c hc
    simp [sepChar, h1, h2]
  refine ⟨?_, ?_, ?_⟩
  · intro hcond
    rw [embeddedRelPath, rel_base_from_md, if_pos hcond]
    have hlit : ∀ c ∈ ("_images".data : List Char), c ≠ '/' ∧ c ≠ '\\' := by decide
    have hsf : ∀ c ∈ stem ++ "_images".data, sepChar w c = false := by
      intro c hc
      rcases List.mem_append.mp hc with h | h
      · obtain ⟨h1, h2⟩ := hstem c h
        simp [sepChar, h1, h2]
      · obtain ⟨h1, h2⟩ := hlit c h
        simp [sepChar, h1, h2]
    have hne : stem ++ "_images".data ≠ [] := by simp
    have hdot : stem ++ "_images".data ≠ ".".data := by
      intro h
      have hlen := congrArg List.length h
      simp [List.length_append] at hlen
    rw [pathParts_single w _ hne hdot hsf, pathParts_single w name hn1 hn2 sfname]
    have hfuse : asPosix [stem ++ "_images".data, name]
        = (stem ++ "_images".data) ++ '/' :: name := rfl
    have hsing : ([stem ++ "_images".data] ++ [name] : List (List Char))
        = [stem ++ "_images".data, name] := rfl
    rw [hsing, hfuse]
    have h2 : ("_images/".data : List Char) = "_images".data ++ ['/'] := by decide
    simp [h2, List.append_assoc]
  · intro hb
    have hnotper : ¬((pyStrip dir).map Char.toLower = "per-file".data) := by
      rcases hb with h | h <;> rw [h] <;> decide
    rw [embeddedRelPath, rel_base_from_md, if_neg hnotper,
      if_pos (show _ from by rcases hb with h | h <;> simp [h])]
    have hdot : pathParts w ".".data = [] := by cases w <;> decide
    rw [hdot, pathParts_single w name hn1 hn2 sfname, List.nil_append]
    rfl
  · have key : ∀ (s p : List Char), p ∈ pathParts true s → ∀ c ∈ p, c ≠ '\\' := by
      intro s p hp c hcp hceq
      have hmem := (List.mem_filter.mp (by rwa [pathParts] at hp)).1
      have hsf := splitOnSep_parts_sepfree (sepChar true) s p hmem c hcp
      subst hceq
      exact absurd hsf (by decide)
    intro c hc
    rw [embeddedRelPath] at hc
    obtain h | h | ⟨p, hp, hcp⟩ := asPosix_chars _ c hc
    · subst h; decide
    · subst h; decide
    · rcases List.mem_append.mp hp with h1 | h1
      · exact key _ p h1 c hcp
      · exact key _ p h1 c hcp

/-- C7 (witness): the contract at concrete inputs — per-file mode (with
whitespace and case tolerated in the configuration string) embeds
`doc_images/n.png`, and empty placement embeds just `n.png`. -/
theorem C7_witness :
    embeddedRelPath false " Per-File ".data "doc".data "n.png".data
        = "doc".data ++ "_images/".data ++ "n.png".data ∧
    embeddedRelPath true "".data "doc".data "n.png".data = "n.png".data :=
  ⟨(C7_embedded_path_contract false " Per-File ".data "doc".data "n.png".data
      (by decide) (by decide) (by decide) (by decide)).1 (by decide),
   (C7_embedded_path_contract true "".data "doc".data "n.png".data
      (by decide) (by decide) (by decide) (by decide)).2.1 (Or.inl (by decide))⟩

/-- C8: in a non-dry run, every block is processed — the per-block loop
never aborts — and the result is characterised exactly: the reported
outcomes cover all blocks in order (`skipped` when the target exists
without `force`, `written` when the renderer succeeds, `failed` when it
raises), while the rewrite pairs and embedded references keep precisely
the non-failing blocks, so a renderer failure on one block is reported,
excluded from the rewrite pairs, and leaves every other block's image and
reference intact. -/
theorem C8_renderer_failure_isolation (stem fmt : List Char) (force : Bool)
    (relOf : List Char → List Char) (env : Nat → Bool × Bool) :
    ∀ (blocks : List ((Nat × Nat) × List Char)) (i : Nat),
      processBlocks stem fmt false force relOf env i blocks
        = (((List.enumFrom i blocks).filter
              (fun ib => ((env ib.1).1 && !force) || (env ib.1).2)).map
            (fun ib => (ib.2.1, imageName stem ib.1 ib.2.2 fmt)),
          ((List.enumFrom i blocks).filter
              (fun ib => ((env ib.1).1 && !force) || (env ib.1).2)).map
            (fun ib => relOf (imageName stem ib.1 ib.2.2 fmt)),
          (List.enumFrom i blocks).map
            (fun ib => (ib.1, if (env ib.1).1 && !force then ROutcome.skipped
              else if (env ib.1).2 then ROutcome.written else ROutcome.failed))) := by
  intro blocks
  induction blocks with
  | nil => intro i; rfl
  | cons b rest ih =>
    intro i
    obtain ⟨sp, code⟩ := b
    rw [processBlocks, ih (i+1)]
    by_cases h1 : ((env i).1 && !force) = true
    · have h1c := h1
      rw [Bool.and_eq_true] at h1c
      obtain ⟨ha, hb⟩ := h1c
      have hf : force = false := by
        simp at hb
        exact hb
      simp [List.enumFrom, List.filter_cons, h1, ha, hf]
    · have h1p : ¬((env i).1 = true ∧ force = false) := by
        rintro ⟨ha, hf⟩
        exact h1 (by simp [ha, hf])
      by_cases h2 : (env i).2 = true
      · simp [List.enumFrom, List.filter_cons, h1, h2, h1p]
      · simp [List.enumFrom, List.filter_cons, h1, h2, h1p]
